import Mathlib

/-!
Verification of the caption-normalization pipeline of
`skills/youtube-analyzer/scripts/analyze_youtube.py`.

Strings of the Python source are modelled as `List Char` (`Str` below);
Python string operations used by the pipeline (`strip`, `splitlines`,
`endswith`, slicing, substring containment, the concrete regular
expressions of the parsers and `re.split`/`re.sub` as instantiated there)
are embedded as executable Lean functions on `List Char`.  Python `\d` is
modelled as an ASCII digit and `str.strip`/`str.splitlines` with the ASCII
whitespace/line separators that caption payloads use; every universally
quantified theorem below is proved for arbitrary line lists and is
insensitive to this choice.
-/

abbrev Str := List Char

abbrev Cue := Str × Str

/-- Whitespace characters removed by Python `str.strip()` (ASCII part). -/
def isPySpace (c : Char) : Bool :=
  c == ' ' || c == '\t' || c == '\n' || c == '\r' || c == '\x0b' || c == '\x0c'

/-- Python `s.strip()`: drop leading and trailing whitespace. -/
def pyStrip (s : Str) : Str :=
  ((s.dropWhile isPySpace).reverse.dropWhile isPySpace).reverse

/-- Python `s.splitlines()` for the separators `\n`, `\r\n`, `\r`:
`acc` holds the characters of the current line in reverse. -/
def splitlinesAux (acc : Str) : Str → List Str
  | [] => if acc = [] then [] else [acc.reverse]
  | '\r' :: '\n' :: rest => acc.reverse :: splitlinesAux [] rest
  | '\n' :: rest => acc.reverse :: splitlinesAux [] rest
  | '\r' :: rest => acc.reverse :: splitlinesAux [] rest
  | c :: rest => splitlinesAux (c :: acc) rest

/-- Python `content.splitlines()`. -/
def splitlines (s : Str) : List Str := splitlinesAux [] s

/-- Python substring containment `n in h` for strings. -/
def isSubstring (n : Str) : Str → Bool
  | [] => n.isEmpty
  | c :: rest => n.isPrefixOf (c :: rest) || isSubstring n rest

theorem isSubstring_iff (n : Str) : ∀ h : Str, isSubstring n h = true ↔ n <:+: h := by
  intro h
  induction h with
  | nil =>
    simp [isSubstring, List.isEmpty_iff, List.infix_nil]
  | cons c rest ih =>
    simp [isSubstring, List.infix_cons_iff, ih, List.isPrefixOf_iff_prefix]

/-- `find_overlap`, analyze_youtube.py lines 243-249: scan `i` from
`min (length prev) (length curr)` down to 1 and return the first `i`
with `prev.endswith(curr[:i])`, else 0.  The countdown argument is made
explicit. -/
def findOverlapFrom (prev curr : Str) : Nat → Nat
  | 0 => 0
  | i + 1 =>
    if (curr.take (i + 1)).isSuffixOf prev then i + 1
    else findOverlapFrom prev curr i

/-- `find_overlap(prev, curr)` of analyze_youtube.py. -/
def find_overlap (prev curr : Str) : Nat :=
  findOverlapFrom prev curr (min prev.length curr.length)

/-- Main loop of `deduplicate_entries`, analyze_youtube.py lines 261-283.
`ts0`/`cur` are the timestamp and text of the open merged cue
(`timestamps[-1]` / `merged_parts[-1]`), `done` the already frozen merged
cues in reverse order, and the fourth argument the remaining input cues. -/
def dedupLoop (ts0 cur : Str) (done : List Cue) : List Cue → List Cue
  | [] => (ts0, cur) :: done
  | (ts, text) :: rest =>
    if text = cur then dedupLoop ts0 cur done rest
    else if isSubstring cur text then dedupLoop ts0 text done rest
    else if isSubstring text cur then dedupLoop ts0 cur done rest
    else if find_overlap cur text > 5 then
      let newPart := pyStrip (text.drop (find_overlap cur text))
      if newPart = [] then dedupLoop ts0 cur done rest
      else dedupLoop ts0 (cur ++ ' ' :: newPart) done rest
    else dedupLoop ts text ((ts0, cur) :: done) rest

/-- `deduplicate_entries(entries)` of analyze_youtube.py lines 252-287. -/
def deduplicate_entries : List Cue → List Cue
  | [] => []
  | (ts, t) :: rest => (dedupLoop ts t [] rest).reverse

/-- Scanner for `re.sub(r"<[^>]+>", "", s)`: outside a candidate tag the
first argument is `none`; inside it is `some buf` with `buf` the
characters seen since the opening bracket, in reverse.  A bracket pair
with a nonempty middle free of closing brackets is removed; `<>` and an
unclosed bracket are kept literally, exactly as the regex leaves them. -/
def stripTagsGo : Option Str → Str → Str
  | none, [] => []
  | none, c :: rest =>
    if c = '<' then stripTagsGo (some []) rest else c :: stripTagsGo none rest
  | some buf, [] => '<' :: buf.reverse
  | some buf, c :: rest =>
    if c = '>' then
      if buf = [] then '<' :: '>' :: stripTagsGo none rest else stripTagsGo none rest
    else stripTagsGo (some (c :: buf)) rest

/-- Tag stripping `re.sub(r"<[^>]+>", "", s)` of analyze_youtube.py. -/
def stripTags (s : Str) : Str := stripTagsGo none s

/-- Entity substitution `re.sub(r"&amp;", "&", s)`. -/
def subAmp : Str → Str
  | '&' :: 'a' :: 'm' :: 'p' :: ';' :: rest => '&' :: subAmp rest
  | c :: rest => c :: subAmp rest
  | [] => []

/-- Entity substitution `re.sub(r"&lt;", "<", s)`. -/
def subLt : Str → Str
  | '&' :: 'l' :: 't' :: ';' :: rest => '<' :: subLt rest
  | c :: rest => c :: subLt rest
  | [] => []

/-- Entity substitution `re.sub(r"&gt;", ">", s)`. -/
def subGt : Str → Str
  | '&' :: 'g' :: 't' :: ';' :: rest => '>' :: subGt rest
  | c :: rest => c :: subGt rest
  | [] => []

/-- Entity substitution `re.sub(r"&nbsp;", " ", s)`. -/
def subNbsp : Str → Str
  | '&' :: 'n' :: 'b' :: 's' :: 'p' :: ';' :: rest => ' ' :: subNbsp rest
  | c :: rest => c :: subNbsp rest
  | [] => []

/-- Per-line text processing of `parse_vtt`, analyze_youtube.py lines
175-179: strip tags, then decode the four entities in source order. -/
def processTextLine (s : Str) : Str :=
  subNbsp (subGt (subLt (subAmp (stripTags s))))

/-- Matcher for an anchored sequence of character classes: returns the
matched prefix.  Used to embed the concrete regular expressions of the
parsers. -/
def matchShape : List (Char → Bool) → Str → Option Str
  | [], _ => some []
  | _ :: _, [] => none
  | p :: ps, c :: cs => if p c then (matchShape ps cs).map (c :: ·) else none

/-- Shape of `\d\d:\d\d:\d\d\.\d\d\d` (first alternative of the VTT
timestamp regex, greedy two-digit hour). -/
def vttShapeA : List (Char → Bool) :=
  [Char.isDigit, Char.isDigit, (· == ':'), Char.isDigit, Char.isDigit, (· == ':'),
   Char.isDigit, Char.isDigit, (· == '.'), Char.isDigit, Char.isDigit, Char.isDigit]

/-- Shape of `\d:\d\d:\d\d\.\d\d\d` (first alternative after the
backtrack to a one-digit hour). -/
def vttShapeB : List (Char → Bool) :=
  [Char.isDigit, (· == ':'), Char.isDigit, Char.isDigit, (· == ':'),
   Char.isDigit, Char.isDigit, (· == '.'), Char.isDigit, Char.isDigit, Char.isDigit]

/-- Shape of `\d\d:\d\d\.\d\d\d` (second alternative of the VTT
timestamp regex). -/
def vttShapeC : List (Char → Bool) :=
  [Char.isDigit, Char.isDigit, (· == ':'), Char.isDigit, Char.isDigit, (· == '.'),
   Char.isDigit, Char.isDigit, Char.isDigit]

/-- `re.match(r"(\d{1,2}:\d{2}:\d{2}\.\d{3}|\d{2}:\d{2}\.\d{3})", line)`
with Python's leftmost-alternative and greedy-quantifier order. -/
def matchVttTimestamp (l : Str) : Option Str :=
  match matchShape vttShapeA l with
  | some m => some m
  | none =>
    match matchShape vttShapeB l with
    | some m => some m
    | none => matchShape vttShapeC l

/-- Python `timestamp.count(":")`. -/
def countColon : Str → Nat
  | [] => 0
  | c :: rest => (if c = ':' then 1 else 0) + countColon rest

/-- Timestamp normalization of `parse_vtt`, lines 163-167: prefix `00:`
when only one colon is present, then keep the first 8 characters. -/
def normalizeVttTimestamp (m : Str) : Str :=
  (if countColon m = 1 then '0' :: '0' :: ':' :: m else m).take 8

/-- Python `" ".join(parts)`. -/
def joinSpace : List Str → Str
  | [] => []
  | [t] => t
  | t :: ts => t ++ ' ' :: joinSpace ts

/-- Python `"\n".join(parts)`. -/
def joinNewline : List Str → Str
  | [] => []
  | [t] => t
  | t :: ts => t ++ '\n' :: joinNewline ts

/-- Emission of a finished cue of `parse_vtt`, lines 184-186: the cue is
kept only when at least one processed text line survived. -/
def vttFinalize : Option (Str × List Str) → List Cue
  | none => []
  | some (ts, tls) => if tls = [] then [] else [(ts, joinSpace tls)]

/-- Main loop of `parse_vtt`, lines 155-189, as a line-by-line state
machine: `none` means scanning for a timestamp line, `some (ts, tls)`
means collecting the text lines of the cue started at `ts`. -/
def vttLoop : Option (Str × List Str) → List Str → List Cue
  | st, [] => vttFinalize st
  | some (ts, tls), line :: rest =>
    if pyStrip line = [] then vttFinalize (some (ts, tls)) ++ vttLoop none rest
    else
      let t := processTextLine (pyStrip line)
      vttLoop (some (ts, if t = [] then tls else tls ++ [t])) rest
  | none, line :: rest =>
    if isSubstring "-->".data (pyStrip line) then
      vttLoop ((matchVttTimestamp (pyStrip line)).map
        (fun m => (normalizeVttTimestamp m, ([] : List Str)))) rest
    else vttLoop none rest

/-- Header skip of `parse_vtt`, lines 151-153. -/
def skipHeader : List Str → List Str
  | [] => []
  | l :: ls =>
    if !("00:".data.isPrefixOf (pyStrip l)) && !(isSubstring "-->".data l) then skipHeader ls
    else l :: ls

/-- `parse_vtt(content)` of analyze_youtube.py lines 145-191. -/
def parse_vtt (content : Str) : List Cue :=
  vttLoop none (skipHeader (splitlines content))

/-- Splitter for `re.split(r"\n\n+", s)`: in dropping mode (first
argument `true`) the run of newlines of the current separator is being
consumed. -/
def splitBlocksGo : Bool → Str → Str → List Str
  | _, acc, [] => [acc.reverse]
  | true, acc, '\n' :: rest => splitBlocksGo true acc rest
  | true, acc, c :: rest => splitBlocksGo false (c :: acc) rest
  | false, acc, '\n' :: '\n' :: rest => acc.reverse :: splitBlocksGo true [] rest
  | false, acc, c :: rest => splitBlocksGo false (c :: acc) rest

/-- Python `re.split(r"\n\n+", s)`. -/
def splitBlocks (s : Str) : List Str := splitBlocksGo false [] s

/-- Shape of `\d\d:\d\d:\d\d` (the SRT timestamp regex). -/
def srtShape : List (Char → Bool) :=
  [Char.isDigit, Char.isDigit, (· == ':'), Char.isDigit, Char.isDigit, (· == ':'),
   Char.isDigit, Char.isDigit]

/-- Per-block parsing of `parse_srt`, analyze_youtube.py lines 199-218:
blocks with fewer than 3 lines or a non-matching second line are
skipped, the remaining lines are stripped, joined and tag-stripped, and
the cue is kept only when text remains. -/
def parseSrtBlock (block : Str) : Option Cue :=
  match splitlines (pyStrip block) with
  | _ :: l1 :: l2 :: ls =>
    match matchShape srtShape l1 with
    | none => none
    | some ts =>
      let text := stripTags (joinSpace (((l2 :: ls).map pyStrip).filter (fun t => t ≠ [])))
      if text = [] then none else some (ts, text)
  | _ => none

/-- `parse_srt(content)` of analyze_youtube.py lines 194-220. -/
def parse_srt (content : Str) : List Cue :=
  (splitBlocks (pyStrip content)).filterMap parseSrtBlock

/-- `parse_subtitle_file(filepath)` of analyze_youtube.py lines 223-240,
with the file read elided: `ext` is `Path(filepath).suffix.lower()` and
`content` the file text. -/
def parse_subtitle_file (ext content : Str) : List Cue :=
  if ext = ".vtt".data then parse_vtt content
  else if ext = ".srt".data then parse_srt content
  else
    let entries := parse_vtt content
    if entries = [] then parse_srt content else entries

/-- `format_subtitle_output(entries, lang)` of analyze_youtube.py lines
290-307. -/
def format_subtitle_output (entries : List Cue) (lang : Str) : Str :=
  if entries = [] then "자막을 파싱할 수 없습니다.".data
  else
    let langLabel :=
      if lang ≠ [] then
        if "ko".data.isPrefixOf lang then " (한국어)".data
        else if "en".data.isPrefixOf lang then " (영어)".data
        else []
      else []
    joinNewline
      (["*언어: ".data ++ lang ++ langLabel ++ "*".data, []] ++
        entries.map (fun e => '[' :: e.1 ++ ']' :: ' ' :: e.2))

/-- Preference list of `extract_subtitles`, analyze_youtube.py line 93. -/
def preferred_langs : List Str :=
  ["ko".data, "ko-KR".data, "en".data, "en-US".data, "en-orig".data]

/-- Language-selection logic of `extract_subtitles`, analyze_youtube.py
lines 95-113: the catalogs are modelled by their key sets (`lang in
available_subs` is a key-membership test); the Bool of the result is
`is_auto`. -/
def select_caption_lang (subs auto : List Str) : Option (Str × Bool) :=
  match preferred_langs.find? (fun l => subs.contains l) with
  | some l => some (l, false)
  | none =>
    match preferred_langs.find? (fun l => auto.contains l) with
    | some l => some (l, true)
    | none => none

/-- Adjacent-pair cleanliness: the second text is neither equal to, nor
a substring of, nor a superstring of the first, and the longest
suffix/prefix overlap is at most 5 characters. -/
def CleanAdj (a b : Cue) : Prop :=
  b.2 ≠ a.2 ∧ isSubstring a.2 b.2 = false ∧ isSubstring b.2 a.2 = false ∧
    find_overlap a.2 b.2 ≤ 5

instance (a b : Cue) : Decidable (CleanAdj a b) :=
  inferInstanceAs (Decidable (b.2 ≠ a.2 ∧ isSubstring a.2 b.2 = false ∧
    isSubstring b.2 a.2 = false ∧ find_overlap a.2 b.2 ≤ 5))

/-- Display form `HH:MM:SS` with a two-digit hour field: exactly 8
characters, digits and colons in the standard positions. -/
def isHHMMSS : Str → Bool
  | [h1, h2, c1, m1, m2, c2, s1, s2] =>
    h1.isDigit && h2.isDigit && (c1 == ':') && m1.isDigit && m2.isDigit && (c2 == ':') &&
      s1.isDigit && s2.isDigit
  | _ => false

/-- Truncation artifact `H:MM:SS.` of a one-digit hour: 8 characters
ending in the fractional-seconds dot. -/
def isHMMSSdot : Str → Bool
  | [h1, c1, m1, m2, c2, s1, s2, d1] =>
    h1.isDigit && (c1 == ':') && m1.isDigit && m2.isDigit && (c2 == ':') &&
      s1.isDigit && s2.isDigit && (d1 == '.')
  | _ => false

/-- Occurrence of a closing bracket. -/
def containsGt : Str → Bool
  | [] => false
  | c :: rest => c == '>' || containsGt rest

/-- Nonempty with a head other than the closing bracket. -/
def headNotGt : Str → Bool
  | [] => false
  | c :: _ => c != '>'

/-- Existence of a match of `<[^>]+>`: an opening bracket followed by at
least one non-closing character and eventually a closing bracket. -/
def hasTag : Str → Bool
  | [] => false
  | c :: rest => (c == '<' && headNotGt rest && containsGt rest) || hasTag rest

example : find_overlap "the quick brown".data "brown fox jumps".data = 5 := by decide

example : find_overlap "the quick brown".data " brown fox jumps".data = 6 := by decide

example :
    deduplicate_entries
        [("t1".data, "the quick brown".data), ("t2".data, " brown fox jumps".data)] =
      [("t1".data, "the quick brown fox jumps".data)] := by decide

example :
    deduplicate_entries [("t1".data, "hello".data), ("t2".data, "hello world".data)] =
      [("t1".data, "hello world".data)] := by decide

example :
    parse_vtt "WEBVTT\n\n00:00:01.000 --> 00:00:02.000\n<c>Hello</c> &amp; World".data =
      [("00:00:01".data, "Hello & World".data)] := by decide

example :
    parse_vtt "1:02:03.456 --> 1:02:05.000\nhello".data =
      [("1:02:03.".data, "hello".data)] := by decide

example :
    parse_vtt "WEBVTT\n\n00:12.500 --> 00:14.000\nhi there".data =
      [("00:00:12".data, "hi there".data)] := by decide

example :
    parse_srt "1\n00:00:01,000 --> 00:00:02,000\nhi".data =
      [("00:00:01".data, "hi".data)] := by decide

example : parse_vtt "".data = [] := by decide

example : parse_srt "".data = [] := by decide

example :
    parse_subtitle_file ".txt".data "1\n00:00:01,000 --> 00:00:02,000\nhi".data =
      [("00:00:01".data, "hi".data)] := by decide

example :
    format_subtitle_output [] "en".data = "자막을 파싱할 수 없습니다.".data := by decide

example :
    format_subtitle_output [("00:00:01".data, "hi".data)] "en".data =
      "*언어: en (영어)*\n\n[00:00:01] hi".data := by decide

example : select_caption_lang ["en".data] ["ko".data] = some ("en".data, false) := by decide

example : select_caption_lang [] ["en".data, "ko".data] = some ("ko".data, true) := by decide

theorem dedupLoop_clean :
    ∀ (rest : List Cue) (ts0 t : Str) (done : List Cue),
      List.Chain' CleanAdj ((ts0, t) :: rest) →
      dedupLoop ts0 t done rest = ((ts0, t) :: rest).reverse ++ done := by
  intro rest
  induction rest with
  | nil =>
    intro ts0 t done _
    simp [dedupLoop]
  | cons e rest ih =>
    intro ts0 t done h
    obtain ⟨ts, text⟩ := e
    rw [List.chain'_cons] at h
    obtain ⟨⟨hne, hs1, hs2, hov⟩, hchain⟩ := h
    dsimp only at hne hs1 hs2 hov
    simp only [dedupLoop]
    rw [if_neg hne, if_neg (by simp [hs1]), if_neg (by simp [hs2]),
      if_neg (by simp only [gt_iff_lt]; omega)]
    rw [ih ts text ((ts0, t) :: done) hchain]
    simp

theorem dedupLoop_chain :
    ∀ (rest : List Cue) (ts0 t : Str) (done : List Cue),
      List.Chain' (fun a b : Cue => a.2 ≠ b.2) done →
      (∀ p ∈ done.head?, ¬ t <:+: p.2) →
      List.Chain' (fun a b : Cue => a.2 ≠ b.2) (dedupLoop ts0 t done rest) := by
  intro rest
  induction rest with
  | nil =>
    intro ts0 t done hdone hhead
    simp only [dedupLoop]
    rw [List.chain'_cons']
    refine ⟨?_, hdone⟩
    intro p hp heq
    exact hhead p hp (heq ▸ List.infix_refl t)
  | cons e rest ih =>
    intro ts0 t done hdone hhead
    obtain ⟨ts, text⟩ := e
    simp only [dedupLoop]
    split_ifs with h1 h2 h3 h4 h5
    · exact ih ts0 t done hdone hhead
    · refine ih ts0 text done hdone ?_
      intro p hp hinf
      exact hhead p hp (((isSubstring_iff t text).mp h2).trans hinf)
    · exact ih ts0 t done hdone hhead
    · exact ih ts0 t done hdone hhead
    · refine ih ts0 _ done hdone ?_
      intro p hp hinf
      exact hhead p hp ((List.prefix_append t _).isInfix.trans hinf)
    · refine ih ts text ((ts0, t) :: done) ?_ ?_
      · rw [List.chain'_cons']
        refine ⟨?_, hdone⟩
        intro p hp heq
        exact hhead p hp (heq ▸ List.infix_refl t)
      · intro p hp hinf
        simp only [List.head?_cons, Option.mem_def, Option.some.injEq] at hp
        rw [← hp] at hinf
        exact h3 ((isSubstring_iff text t).mpr hinf)

theorem dedupLoop_fst_sublist :
    ∀ (rest : List Cue) (ts0 t : Str) (done : List Cue),
      ((dedupLoop ts0 t done rest).map Prod.fst).Sublist
        ((rest.map Prod.fst).reverse ++ ts0 :: done.map Prod.fst) := by
  intro rest
  induction rest with
  | nil =>
    intro ts0 t done
    simp [dedupLoop]
  | cons e rest ih =>
    intro ts0 t done
    obtain ⟨ts, text⟩ := e
    simp only [dedupLoop, List.map_cons, List.reverse_cons, List.append_assoc,
      List.singleton_append]
    split_ifs with h1 h2 h3 h4 h5
    · exact (ih ts0 t done).trans ((List.sublist_cons_self ts _).append_left _)
    · exact (ih ts0 text done).trans ((List.sublist_cons_self ts _).append_left _)
    · exact (ih ts0 t done).trans ((List.sublist_cons_self ts _).append_left _)
    · exact (ih ts0 t done).trans ((List.sublist_cons_self ts _).append_left _)
    · exact (ih ts0 _ done).trans ((List.sublist_cons_self ts _).append_left _)
    · simpa using ih ts text ((ts0, t) :: done)

theorem getLast_fst_irrel (a x y : Str) (done : List Cue) :
    (((a, x) :: done).getLast?).map Prod.fst =
      (((a, y) :: done).getLast?).map Prod.fst := by
  cases done with
  | nil => rfl
  | cons d ds => simp [List.getLast?_cons_cons]

theorem dedupLoop_getLast_fst :
    ∀ (rest : List Cue) (ts0 t : Str) (done : List Cue),
      ((dedupLoop ts0 t done rest).getLast?).map Prod.fst =
        (((ts0, t) :: done).getLast?).map Prod.fst := by
  intro rest
  induction rest with
  | nil =>
    intro ts0 t done
    simp [dedupLoop]
  | cons e rest ih =>
    intro ts0 t done
    obtain ⟨ts, text⟩ := e
    simp only [dedupLoop]
    split_ifs with h1 h2 h3 h4 h5
    · exact ih ts0 t done
    · exact (ih ts0 text done).trans (getLast_fst_irrel ts0 text t done)
    · exact ih ts0 t done
    · exact ih ts0 t done
    · exact (ih ts0 _ done).trans (getLast_fst_irrel ts0 _ t done)
    · exact (ih ts text ((ts0, t) :: done)).trans (by simp [List.getLast?_cons_cons])

/-- C4: the output of `deduplicate_entries` never contains two adjacent
cues with identical text, even though the open merged cue's text can be
replaced or extended after its predecessor was frozen. -/
theorem C4_no_adjacent_duplicates :
    ∀ entries : List Cue,
      List.Chain' (fun a b : Cue => a.2 ≠ b.2) (deduplicate_entries entries) := by
  intro entries
  match entries with
  | [] => exact List.chain'_nil
  | (ts, t) :: rest =>
    show List.Chain' _ (dedupLoop ts t [] rest).reverse
    rw [List.chain'_reverse]
    refine List.Chain'.imp ?_ (dedupLoop_chain rest ts t [] List.chain'_nil (by simp))
    intro a b hab
    exact hab.symm

/-- C5: `deduplicate_entries` is the identity on already-clean input:
when every adjacent pair of texts is distinct, free of mutual
containment and has overlap at most 5, the cue sequence is returned
unchanged. -/
theorem C5_dedup_identity_on_clean :
    ∀ entries : List Cue,
      List.Chain' CleanAdj entries → deduplicate_entries entries = entries := by
  intro entries h
  match entries with
  | [] => rfl
  | (ts, t) :: rest =>
    show (dedupLoop ts t [] rest).reverse = _
    rw [dedupLoop_clean rest ts t [] h]
    simp

/-- C5, witness. -/
theorem C5_dedup_identity_on_clean_witness :
    deduplicate_entries [("t1".data, "abcdef".data), ("t2".data, "uvwxyz".data)] =
      [("t1".data, "abcdef".data), ("t2".data, "uvwxyz".data)] :=
  C5_dedup_identity_on_clean
    [("t1".data, "abcdef".data), ("t2".data, "uvwxyz".data)]
    (List.chain'_cons.mpr ⟨by decide, List.chain'_singleton _⟩)

/-- C6: merging never invents or reorders timestamps (the output
timestamps are a subsequence of the input timestamps), the first output
cue always carries the first input cue's timestamp, and in the spec's
containment example the absorbed cue's timestamp is dropped while its
fuller text is kept. -/
theorem C6_timestamps_preserved :
    (∀ entries : List Cue,
      ((deduplicate_entries entries).map Prod.fst).Sublist (entries.map Prod.fst)) ∧
    (∀ (ts t : Str) (rest : List Cue),
      ((deduplicate_entries ((ts, t) :: rest)).head?).map Prod.fst = some ts) ∧
    (∀ t1 t2 : Str,
      deduplicate_entries [(t1, "hello".data), (t2, "hello world".data)] =
        [(t1, "hello world".data)]) := by
  refine ⟨?_, ?_, ?_⟩
  · intro entries
    match entries with
    | [] => simp [deduplicate_entries]
    | (ts, t) :: rest =>
      show ((dedupLoop ts t [] rest).reverse.map Prod.fst).Sublist _
      rw [List.map_reverse]
      have h := (dedupLoop_fst_sublist rest ts t []).reverse
      simpa [List.reverse_append] using h
  · intro ts t rest
    show ((dedupLoop ts t [] rest).reverse.head?).map Prod.fst = some ts
    rw [List.head?_reverse, dedupLoop_getLast_fst]
    rfl
  · intro t1 t2
    simp +decide [deduplicate_entries, dedupLoop]

/-- C1, counterexample: the spec's example pair has overlap "brown" of
length exactly 5, which does not exceed the strict threshold `> 5`, so
`deduplicate_entries` does not merge it into a single cue. -/
theorem C1_counterexample :
    deduplicate_entries
        [("t1".data, "the quick brown".data), ("t2".data, "brown fox jumps".data)] ≠
      [("t1".data, "the quick brown fox jumps".data)] := by decide

/-- C1 (amended): for two cues with distinct texts, neither contained in
the other, whose longest suffix-of-prev/prefix-of-curr overlap strictly
exceeds 5 characters and whose trimmed remainder is nonempty,
`deduplicate_entries` keeps one cue whose text is the merged text joined
by a single space and drops `curr`; the spec's example pair has overlap
exactly 5, so it is returned unchanged as two cues. -/
theorem C1_overlap_merge_amended :
    (∀ t1 t2 p c : Str, c ≠ p → isSubstring p c = false → isSubstring c p = false →
      5 < find_overlap p c → pyStrip (c.drop (find_overlap p c)) ≠ [] →
      deduplicate_entries [(t1, p), (t2, c)] =
        [(t1, p ++ ' ' :: pyStrip (c.drop (find_overlap p c)))]) ∧
    (∀ t1 t2 : Str,
      deduplicate_entries [(t1, "the quick brown".data), (t2, "brown fox jumps".data)] =
        [(t1, "the quick brown".data), (t2, "brown fox jumps".data)]) := by
  constructor
  · intro t1 t2 p c h1 h2 h3 h4 h5
    simp [deduplicate_entries, dedupLoop, h1, h2, h3, h4, h5, gt_iff_lt]
  · intro t1 t2
    simp +decide [deduplicate_entries, dedupLoop]

/-- C1, witness: a 6-character overlap merges. -/
theorem C1_overlap_merge_amended_witness :
    5 < find_overlap "the quick brown".data " brown fox jumps".data ∧
    deduplicate_entries
        [("t1".data, "the quick brown".data), ("t2".data, " brown fox jumps".data)] =
      [("t1".data, "the quick brown fox jumps".data)] :=
  ⟨by decide,
    (C1_overlap_merge_amended.1 "t1".data "t2".data "the quick brown".data
        " brown fox jumps".data (by decide) (by decide) (by decide) (by decide)
        (by decide)).trans (by decide)⟩

theorem find?_first {α : Type} (p : α → Bool) :
    ∀ L : List α, (∃ a ∈ L, p a = true) →
      ∃ pre a suf, L = pre ++ a :: suf ∧ (∀ x ∈ pre, p x = false) ∧ p a = true ∧
        L.find? p = some a := by
  intro L
  induction L with
  | nil =>
    rintro ⟨a, ha, _⟩
    exact absurd ha (List.not_mem_nil a)
  | cons b L ih =>
    rintro ⟨a, ha, hpa⟩
    by_cases hb : p b = true
    · exact ⟨[], b, L, rfl, by simp, hb, List.find?_cons_of_pos L hb⟩
    · have ha' : a ∈ L := by
        rcases List.mem_cons.mp ha with h | h
        · subst h
          exact absurd hpa hb
        · exact h
      obtain ⟨pre, a', suf, hL, hpre, hpa', hfind⟩ := ih ⟨a, ha', hpa⟩
      refine ⟨b :: pre, a', suf, by simp [hL], ?_, hpa', ?_⟩
      · intro x hx
        rcases List.mem_cons.mp hx with h | h
        · subst h
          exact Bool.eq_false_iff.mpr hb
        · exact hpre x h
      · rw [List.find?_cons_of_neg L hb]
        exact hfind

theorem select_eq_of_manual {subs auto : List Str} {l : Str}
    (h : preferred_langs.find? (fun x => subs.contains x) = some l) :
    select_caption_lang subs auto = some (l, false) := by
  unfold select_caption_lang
  rw [h]

theorem select_eq_of_no_manual {subs auto : List Str}
    (h : preferred_langs.find? (fun x => subs.contains x) = none) :
    select_caption_lang subs auto =
      match preferred_langs.find? (fun x => auto.contains x) with
      | some l => some (l, true)
      | none => none := by
  unfold select_caption_lang
  rw [h]

/-- C3: whenever some preferred language has a manual track, the
selector picks the highest-ranked such language with `is_auto = false`
regardless of the automatic catalog; and an automatic pick can only
happen when no preferred language has a manual track, in which case the
automatic partition is scanned in the same preference order. -/
theorem C3_selector_manual_priority :
    (∀ subs auto : List Str, (∃ l ∈ preferred_langs, subs.contains l = true) →
      ∃ pre l suf, preferred_langs = pre ++ l :: suf ∧
        (∀ x ∈ pre, subs.contains x = false) ∧ subs.contains l = true ∧
        select_caption_lang subs auto = some (l, false)) ∧
    (∀ (subs auto : List Str) (l : Str),
      select_caption_lang subs auto = some (l, true) →
        (∀ x ∈ preferred_langs, subs.contains x = false) ∧
        preferred_langs.find? (fun x => auto.contains x) = some l) := by
  constructor
  · intro subs auto hex
    obtain ⟨pre, l, suf, hL, hpre, hl, hfind⟩ :=
      find?_first (fun x => subs.contains x) preferred_langs hex
    exact ⟨pre, l, suf, hL, hpre, hl, select_eq_of_manual hfind⟩
  · intro subs auto l hsel
    rcases hfind : preferred_langs.find? (fun x => subs.contains x) with _ | l'
    · have hall : ∀ x ∈ preferred_langs, subs.contains x = false := by
        intro x hx
        simpa using List.find?_eq_none.mp hfind x hx
      refine ⟨hall, ?_⟩
      rw [select_eq_of_no_manual hfind] at hsel
      rcases hauto : preferred_langs.find? (fun x => auto.contains x) with _ | l2 <;>
        rw [hauto] at hsel <;> simp at hsel
      subst hsel
      rfl
    · rw [select_eq_of_manual hfind] at hsel
      simp at hsel

/-- C3, witness: catalog with a manual `en` track and an automatic `ko`
track still selects the manual `en`. -/
theorem C3_selector_manual_priority_witness :
    ∃ pre l suf, preferred_langs = pre ++ l :: suf ∧
      (∀ x ∈ pre, (["en".data] : List Str).contains x = false) ∧
      (["en".data] : List Str).contains l = true ∧
      select_caption_lang ["en".data] ["ko".data] = some (l, false) :=
  C3_selector_manual_priority.1 ["en".data] ["ko".data] ⟨"en".data, by decide, by decide⟩

theorem joinSpace_ne_nil : ∀ (t : Str) (ts : List Str), t ≠ [] → joinSpace (t :: ts) ≠ [] := by
  intro t ts ht
  cases ts with
  | nil => simpa [joinSpace] using ht
  | cons t2 ts2 => simp [joinSpace]

theorem vttFinalize_text_ne :
    ∀ st : Option (Str × List Str),
      (∀ ts tls, st = some (ts, tls) → ∀ t ∈ tls, t ≠ []) →
      ∀ c ∈ vttFinalize st, c.2 ≠ [] := by
  intro st hst c hc
  match st with
  | none => simp [vttFinalize] at hc
  | some (ts, tls) =>
    by_cases h : tls = []
    · simp [vttFinalize, h] at hc
    · simp only [vttFinalize, if_neg h, List.mem_singleton] at hc
      subst hc
      match tls, h with
      | t :: tls2, _ =>
        exact joinSpace_ne_nil t tls2 (hst ts (t :: tls2) rfl t (by simp))

theorem vttLoop_nil : ∀ st, vttLoop st [] = vttFinalize st := by
  intro st
  rcases st with _ | ⟨ts, tls⟩ <;> rfl

theorem vttLoop_text_ne :
    ∀ (lines : List Str) (st : Option (Str × List Str)),
      (∀ ts tls, st = some (ts, tls) → ∀ t ∈ tls, t ≠ []) →
      ∀ c ∈ vttLoop st lines, c.2 ≠ [] := by
  intro lines
  induction lines with
  | nil =>
    intro st hst
    simp only [vttLoop_nil]
    exact vttFinalize_text_ne st hst
  | cons line rest ih =>
    intro st hst c hc
    match st with
    | some (ts, tls) =>
      simp only [vttLoop] at hc
      by_cases hblank : pyStrip line = []
      · rw [if_pos hblank] at hc
        rcases List.mem_append.mp hc with h | h
        · exact vttFinalize_text_ne (some (ts, tls)) hst c h
        · exact ih none (by intro ts2 tls2 heq; simp at heq) c h
      · rw [if_neg hblank] at hc
        refine ih _ ?_ c hc
        intro ts2 tls2 heq x hx
        injection heq with heq2
        injection heq2 with heqa heqb
        subst heqb
        by_cases ht : processTextLine (pyStrip line) = []
        · rw [if_pos ht] at hx
          exact hst ts tls rfl x hx
        · rw [if_neg ht] at hx
          rcases List.mem_append.mp hx with h | h
          · exact hst ts tls rfl x h
          · rw [List.mem_singleton] at h
            subst h
            exact ht
    | none =>
      simp only [vttLoop] at hc
      by_cases harrow : isSubstring "-->".data (pyStrip line) = true
      · rw [if_pos harrow] at hc
        rcases hm : matchVttTimestamp (pyStrip line) with _ | m <;> rw [hm] at hc
        · rw [Option.map_none'] at hc
          exact ih none (by intro ts2 tls2 heq; simp at heq) c hc
        · rw [Option.map_some'] at hc
          refine ih _ ?_ c hc
          intro ts2 tls2 heq x hx
          injection heq with heq2
          injection heq2 with heqa heqb
          subst heqb
          simp at hx
      · rw [if_neg harrow] at hc
        exact ih none (by intro ts2 tls2 heq; simp at heq) c hc

theorem parseSrtBlock_text_ne :
    ∀ (block : Str) (e : Cue), parseSrtBlock block = some e → e.2 ≠ [] := by
  intro block e h
  unfold parseSrtBlock at h
  split at h
  · split at h
    · exact absurd h (by simp)
    · dsimp only at h
      split at h
      · exact absurd h (by simp)
      · rename_i htext
        injection h with h2
        subst h2
        exact htext
  · exact absurd h (by simp)

/-- C10: every cue produced by either parser has nonempty text; blocks
whose payload vanishes after stripping and trimming yield no cue at all. -/
theorem C10_nonempty_text :
    ∀ content : Str,
      (∀ c ∈ parse_vtt content, c.2 ≠ []) ∧ (∀ c ∈ parse_srt content, c.2 ≠ []) := by
  intro content
  constructor
  · intro c hc
    exact vttLoop_text_ne (skipHeader (splitlines content)) none
      (by intro ts tls heq; simp at heq) c hc
  · intro c hc
    obtain ⟨block, _, hb⟩ := List.mem_filterMap.mp hc
    exact parseSrtBlock_text_ne block c hb

/-- C10, witness. -/
theorem C10_nonempty_text_witness : ("hi".data : Str) ≠ [] :=
  (C10_nonempty_text "00:00:01.000 --> 00:00:02.000\nhi".data).1
    ("00:00:01".data, "hi".data) (by decide)

theorem digit_ne_colon {c : Char} (h : c.isDigit = true) : c ≠ ':' := by
  intro hc
  subst hc
  exact absurd h (by decide)

theorem matchShape_sound :
    ∀ (ps : List (Char → Bool)) (l m : Str),
      matchShape ps l = some m → List.Forall₂ (fun p c => p c = true) ps m := by
  intro ps
  induction ps with
  | nil =>
    intro l m h
    simp only [matchShape, Option.some.injEq] at h
    subst h
    exact List.Forall₂.nil
  | cons p ps ih =>
    intro l m h
    match l with
    | [] => exact absurd h (by simp [matchShape])
    | c :: cs =>
      simp only [matchShape] at h
      by_cases hp : p c = true
      · rw [if_pos hp] at h
        obtain ⟨m2, hm2, rfl⟩ := Option.map_eq_some'.mp h
        exact List.Forall₂.cons hp (ih cs m2 hm2)
      · rw [if_neg hp] at h
        exact absurd h (by simp)

theorem take8_explicit (a b c d e f g h : Char) (rest : Str) :
    (a :: b :: c :: d :: e :: f :: g :: h :: rest).take 8 = [a, b, c, d, e, f, g, h] := rfl

theorem shapeA_norm {l m : Str} (h : matchShape vttShapeA l = some m) :
    isHHMMSS (normalizeVttTimestamp m) = true := by
  have h2 := matchShape_sound vttShapeA l m h
  simp only [vttShapeA, List.forall₂_cons_left_iff, List.forall₂_nil_left_iff] at h2
  obtain ⟨c0, r0, p0, h2, rfl⟩ := h2
  obtain ⟨c1, r1, p1, h2, rfl⟩ := h2
  obtain ⟨c2, r2, p2, h2, rfl⟩ := h2
  obtain ⟨c3, r3, p3, h2, rfl⟩ := h2
  obtain ⟨c4, r4, p4, h2, rfl⟩ := h2
  obtain ⟨c5, r5, p5, h2, rfl⟩ := h2
  obtain ⟨c6, r6, p6, h2, rfl⟩ := h2
  obtain ⟨c7, r7, p7, h2, rfl⟩ := h2
  obtain ⟨c8, r8, p8, h2, rfl⟩ := h2
  obtain ⟨c9, r9, p9, h2, rfl⟩ := h2
  obtain ⟨c10, r10, p10, h2, rfl⟩ := h2
  obtain ⟨c11, r11, p11, h2, rfl⟩ := h2
  subst h2
  rw [beq_iff_eq] at p2 p5 p8
  subst p2
  subst p5
  subst p8
  have hcount :
      countColon [c0, c1, ':', c3, c4, ':', c6, c7, '.', c9, c10, c11] = 2 := by
    simp +decide [countColon, digit_ne_colon p0, digit_ne_colon p1, digit_ne_colon p3,
      digit_ne_colon p4, digit_ne_colon p6, digit_ne_colon p7, digit_ne_colon p9,
      digit_ne_colon p10, digit_ne_colon p11]
  unfold normalizeVttTimestamp
  rw [hcount, if_neg (by decide)]
  rw [show ([c0, c1, ':', c3, c4, ':', c6, c7, '.', c9, c10, c11] : Str) =
    c0 :: c1 :: ':' :: c3 :: c4 :: ':' :: c6 :: c7 :: ('.' :: [c9, c10, c11]) from rfl]
  rw [take8_explicit]
  simp +decide [isHHMMSS, p0, p1, p3, p4, p6, p7]

theorem shapeB_norm {l m : Str} (h : matchShape vttShapeB l = some m) :
    isHMMSSdot (normalizeVttTimestamp m) = true := by
  have h2 := matchShape_sound vttShapeB l m h
  simp only [vttShapeB, List.forall₂_cons_left_iff, List.forall₂_nil_left_iff] at h2
  obtain ⟨c0, r0, p0, h2, rfl⟩ := h2
  obtain ⟨c1, r1, p1, h2, rfl⟩ := h2
  obtain ⟨c2, r2, p2, h2, rfl⟩ := h2
  obtain ⟨c3, r3, p3, h2, rfl⟩ := h2
  obtain ⟨c4, r4, p4, h2, rfl⟩ := h2
  obtain ⟨c5, r5, p5, h2, rfl⟩ := h2
  obtain ⟨c6, r6, p6, h2, rfl⟩ := h2
  obtain ⟨c7, r7, p7, h2, rfl⟩ := h2
  obtain ⟨c8, r8, p8, h2, rfl⟩ := h2
  obtain ⟨c9, r9, p9, h2, rfl⟩ := h2
  obtain ⟨c10, r10, p10, h2, rfl⟩ := h2
  subst h2
  rw [beq_iff_eq] at p1 p4 p7
  subst p1
  subst p4
  subst p7
  have hcount :
      countColon [c0, ':', c2, c3, ':', c5, c6, '.', c8, c9, c10] = 2 := by
    simp +decide [countColon, digit_ne_colon p0, digit_ne_colon p2, digit_ne_colon p3,
      digit_ne_colon p5, digit_ne_colon p6, digit_ne_colon p8, digit_ne_colon p9,
      digit_ne_colon p10]
  unfold normalizeVttTimestamp
  rw [hcount, if_neg (by decide)]
  rw [show ([c0, ':', c2, c3, ':', c5, c6, '.', c8, c9, c10] : Str) =
    c0 :: ':' :: c2 :: c3 :: ':' :: c5 :: c6 :: '.' :: [c8, c9, c10] from rfl]
  rw [take8_explicit]
  simp +decide [isHMMSSdot, p0, p2, p3, p5, p6]

theorem shapeC_norm {l m : Str} (h : matchShape vttShapeC l = some m) :
    isHHMMSS (normalizeVttTimestamp m) = true := by
  have h2 := matchShape_sound vttShapeC l m h
  simp only [vttShapeC, List.forall₂_cons_left_iff, List.forall₂_nil_left_iff] at h2
  obtain ⟨c0, r0, p0, h2, rfl⟩ := h2
  obtain ⟨c1, r1, p1, h2, rfl⟩ := h2
  obtain ⟨c2, r2, p2, h2, rfl⟩ := h2
  obtain ⟨c3, r3, p3, h2, rfl⟩ := h2
  obtain ⟨c4, r4, p4, h2, rfl⟩ := h2
  obtain ⟨c5, r5, p5, h2, rfl⟩ := h2
  obtain ⟨c6, r6, p6, h2, rfl⟩ := h2
  obtain ⟨c7, r7, p7, h2, rfl⟩ := h2
  obtain ⟨c8, r8, p8, h2, rfl⟩ := h2
  subst h2
  rw [beq_iff_eq] at p2 p5
  subst p2
  subst p5
  have hcount : countColon [c0, c1, ':', c3, c4, '.', c6, c7, c8] = 1 := by
    simp +decide [countColon, digit_ne_colon p0, digit_ne_colon p1, digit_ne_colon p3,
      digit_ne_colon p4, digit_ne_colon p6, digit_ne_colon p7, digit_ne_colon p8]
  unfold normalizeVttTimestamp
  rw [hcount, if_pos (by decide)]
  rw [show ('0' :: '0' :: ':' :: ([c0, c1, ':', c3, c4, '.', c6, c7, c8] : Str)) =
    '0' :: '0' :: ':' :: c0 :: c1 :: ':' :: c3 :: c4 :: ('.' :: [c6, c7, c8]) from rfl]
  rw [take8_explicit]
  simp +decide [isHHMMSS, p0, p1, p3, p4]

theorem matchVttTimestamp_shape {l m : Str} (h : matchVttTimestamp l = some m) :
    isHHMMSS (normalizeVttTimestamp m) = true ∨
      isHMMSSdot (normalizeVttTimestamp m) = true := by
  unfold matchVttTimestamp at h
  split at h
  · rename_i mA hA
    injection h with h2
    subst h2
    exact Or.inl (shapeA_norm hA)
  · rename_i hA
    split at h
    · rename_i mB hB
      injection h with h2
      subst h2
      exact Or.inr (shapeB_norm hB)
    · rename_i hB
      exact Or.inl (shapeC_norm h)

theorem vttFinalize_fst (P : Str → Prop) :
    ∀ st : Option (Str × List Str),
      (∀ ts tls, st = some (ts, tls) → P ts) →
      ∀ c ∈ vttFinalize st, P c.1 := by
  intro st hst c hc
  match st with
  | none => simp [vttFinalize] at hc
  | some (ts, tls) =>
    by_cases h : tls = []
    · simp [vttFinalize, h] at hc
    · simp only [vttFinalize, if_neg h, List.mem_singleton] at hc
      subst hc
      exact hst ts tls rfl

theorem vttLoop_fst (P : Str → Prop) :
    ∀ (lines : List Str) (st : Option (Str × List Str)),
      (∀ ts tls, st = some (ts, tls) → P ts) →
      (∀ l m, matchVttTimestamp l = some m → P (normalizeVttTimestamp m)) →
      ∀ c ∈ vttLoop st lines, P c.1 := by
  intro lines
  induction lines with
  | nil =>
    intro st hst _
    simp only [vttLoop_nil]
    exact vttFinalize_fst P st hst
  | cons line rest ih =>
    intro st hst hmatch c hc
    match st with
    | some (ts, tls) =>
      simp only [vttLoop] at hc
      by_cases hblank : pyStrip line = []
      · rw [if_pos hblank] at hc
        rcases List.mem_append.mp hc with h | h
        · exact vttFinalize_fst P (some (ts, tls)) hst c h
        · exact ih none (by intro ts2 tls2 heq; simp at heq) hmatch c h
      · rw [if_neg hblank] at hc
        refine ih _ ?_ hmatch c hc
        intro ts2 tls2 heq
        injection heq with heq2
        injection heq2 with heqa heqb
        subst heqa
        exact hst ts tls rfl
    | none =>
      simp only [vttLoop] at hc
      by_cases harrow : isSubstring "-->".data (pyStrip line) = true
      · rw [if_pos harrow] at hc
        rcases hm : matchVttTimestamp (pyStrip line) with _ | m <;> rw [hm] at hc
        · rw [Option.map_none'] at hc
          exact ih none (by intro ts2 tls2 heq; simp at heq) hmatch c hc
        · rw [Option.map_some'] at hc
          refine ih _ ?_ hmatch c hc
          intro ts2 tls2 heq
          injection heq with heq2
          injection heq2 with heqa heqb
          subst heqa
          exact hmatch (pyStrip line) m hm
      · rw [if_neg harrow] at hc
        exact ih none (by intro ts2 tls2 heq; simp at heq) hmatch c hc

/-- C2, counterexample: a one-digit-hour cue is accepted by the
timestamp regex but its stored timestamp keeps the fractional-seconds
dot and is not a normalized HH:MM:SS string. -/
theorem C2_counterexample :
    parse_vtt "1:02:03.456 --> 1:02:05.000\nhello".data =
      [("1:02:03.".data, "hello".data)] ∧
    isHHMMSS "1:02:03.".data = false := ⟨by decide, by decide⟩

/-- C2 (amended): every cue stored by the Format A parser has a
timestamp that is either a normalized 8-character HH:MM:SS string
(two-digit-hour and MM:SS start forms) or, for the one-digit-hour start
form, the 8-character truncation H:MM:SS. that retains the dot. -/
theorem C2_timestamp_shape_amended :
    ∀ content : Str, ∀ c ∈ parse_vtt content,
      isHHMMSS c.1 = true ∨ isHMMSSdot c.1 = true := by
  intro content c hc
  exact vttLoop_fst (fun ts => isHHMMSS ts = true ∨ isHMMSSdot ts = true)
    (skipHeader (splitlines content)) none
    (by intro ts tls heq; simp at heq)
    (fun l m hm => matchVttTimestamp_shape hm) c hc

/-- C2, witness. -/
theorem C2_timestamp_shape_amended_witness :
    isHHMMSS ("00:00:01".data : Str) = true ∨
      isHMMSSdot ("00:00:01".data : Str) = true :=
  C2_timestamp_shape_amended "00:00:01.000 --> 00:00:02.000\nhi".data
    ("00:00:01".data, "hi".data) (by decide)

theorem containsGt_iff : ∀ l : Str, containsGt l = true ↔ '>' ∈ l := by
  intro l
  induction l with
  | nil => simp [containsGt]
  | cons c rest ih =>
    simp only [containsGt, Bool.or_eq_true, ih, List.mem_cons, beq_iff_eq]
    constructor
    · rintro (h | h)
      · exact Or.inl h.symm
      · exact Or.inr h
    · rintro (h | h)
      · exact Or.inl h.symm
      · exact Or.inr h

theorem hasTag_of_gtFree : ∀ s : Str, containsGt s = false → hasTag s = false := by
  intro s
  induction s with
  | nil => intro _; rfl
  | cons c rest ih =>
    intro h
    simp only [containsGt, Bool.or_eq_false_iff] at h
    simp [hasTag, h.1, h.2, ih h.2]

theorem stripTagsGo_no_tag :
    ∀ s : Str,
      hasTag (stripTagsGo none s) = false ∧
      ∀ buf : Str, containsGt buf = false → hasTag (stripTagsGo (some buf) s) = false := by
  intro s
  induction s with
  | nil =>
    refine ⟨rfl, ?_⟩
    intro buf hbuf
    have hrev : containsGt buf.reverse = false := by
      rw [Bool.eq_false_iff]
      intro hc
      rw [Bool.eq_false_iff] at hbuf
      exact hbuf ((containsGt_iff buf).mpr (List.mem_reverse.mp ((containsGt_iff _).mp hc)))
    simp [stripTagsGo, hasTag, hrev, hasTag_of_gtFree _ hrev]
  | cons c rest ih =>
    constructor
    · by_cases hc : c = '<'
      · subst hc
        simpa [stripTagsGo] using ih.2 [] rfl
      · have hb : (c == '<') = false := beq_eq_false_iff_ne.mpr hc
        simp [stripTagsGo, hc, hasTag, hb, ih.1]
    · intro buf hbuf
      by_cases hgt : c = '>'
      · subst hgt
        by_cases hb : buf = []
        · subst hb
          simp +decide [stripTagsGo, hasTag, headNotGt, ih.1]
        · simp [stripTagsGo, hb, ih.1]
      · have hcb : containsGt (c :: buf) = false := by
          simp [containsGt, beq_eq_false_iff_ne.mpr hgt, hbuf]
        simp only [stripTagsGo, if_neg hgt]
        exact ih.2 (c :: buf) hcb

/-- C7: tag stripping leaves no complete `<...>` tag in any line, and on
the spec's example the Format A text pipeline strips the tags and
decodes exactly the four entities (other entities are left untouched). -/
theorem C7_markup_stripping :
    (∀ s : Str, hasTag (stripTags s) = false) ∧
    parse_vtt "WEBVTT\n\n00:00:01.000 --> 00:00:02.000\n<c>Hello</c> &amp; World".data =
      [("00:00:01".data, "Hello & World".data)] ∧
    processTextLine "&lt;tag&gt;".data = "<tag>".data ∧
    processTextLine "&nbsp;".data = " ".data ∧
    processTextLine "&quot;x&#39;".data = "&quot;x&#39;".data ∧
    processTextLine "a <i>b</i> <00:00:01.000>c".data = "a b c".data :=
  ⟨fun s => (stripTagsGo_no_tag s).1, by decide, by decide, by decide, by decide, by decide⟩

/-- C8: empty (or wholly unparsable) caption text makes both parsers
return the empty cue sequence, the dispatcher returns the empty sequence
for every extension hint, and the renderer maps the empty sequence to
the fixed no-parseable-captions message, which is not the empty string. -/
theorem C8_empty_input_handling :
    parse_vtt [] = [] ∧ parse_srt [] = [] ∧
    (∀ ext : Str, parse_subtitle_file ext [] = []) ∧
    (∀ lang : Str, format_subtitle_output [] lang = "자막을 파싱할 수 없습니다.".data) ∧
    ("자막을 파싱할 수 없습니다.".data : Str) ≠ [] ∧
    parse_vtt "hello world".data = [] ∧ parse_srt "hello world".data = [] := by
  refine ⟨by decide, by decide, ?_, ?_, by decide, by decide, by decide⟩
  · intro ext
    simp [parse_subtitle_file, show parse_vtt [] = [] from by decide,
      show parse_srt [] = [] from by decide]
  · intro lang
    rfl

/-- C9: with hint `.vtt` only Format A runs, with hint `.srt` only
Format B runs, and with any other hint Format A runs first and Format B
runs exactly when Format A produced zero cues. -/
theorem C9_dispatch_fallback :
    ∀ ext content : Str,
      (ext = ".vtt".data → parse_subtitle_file ext content = parse_vtt content) ∧
      (ext = ".srt".data → parse_subtitle_file ext content = parse_srt content) ∧
      (ext ≠ ".vtt".data → ext ≠ ".srt".data →
        (parse_vtt content = [] → parse_subtitle_file ext content = parse_srt content) ∧
        (parse_vtt content ≠ [] → parse_subtitle_file ext content = parse_vtt content)) := by
  intro ext content
  refine ⟨?_, ?_, ?_⟩
  · intro h
    simp [parse_subtitle_file, h]
  · intro h
    subst h
    simp +decide [parse_subtitle_file]
  · intro h1 h2
    constructor
    · intro h3
      simp [parse_subtitle_file, h1, h2, h3]
    · intro h3
      simp [parse_subtitle_file, h1, h2, h3]

/-- C9, witness: a mislabeled `.txt` payload in Format B falls through
Format A to Format B. -/
theorem C9_dispatch_fallback_witness :
    parse_subtitle_file ".txt".data "1\n00:00:01,000 --> 00:00:02,000\nhi".data =
      [("00:00:01".data, "hi".data)] :=
  (((C9_dispatch_fallback ".txt".data
        "1\n00:00:01,000 --> 00:00:02,000\nhi".data).2.2
      (by decide) (by decide)).1 (by decide)).trans (by decide)
